import Mathlib

/-!
Verification of the spyder crawl engine against its specification.

This file shallowly embeds the components of the repository that the
checked properties concern: the in-memory deduplicator
(internal/dedup/memory.go), the per-host circuit breaker
(internal/circuitbreaker/breaker.go), the robots cache
(internal/robots/cache.go), the link extractor (internal/extract/extract.go),
the batch emitter (internal/emit/emit.go) and the per-host crawl pipeline
(probe.CrawlOne).  Wall-clock instants are embedded as natural numbers,
machine integers as naturals, external library calls (public-suffix lookup,
URL parsing, JSON encoding and decoding, network fetches) as explicit
function parameters, and the mutable state of each component as explicit
state passing.
-/

namespace Spyder

/-! ## Deduplicator (internal/dedup/memory.go)

The in-memory deduplicator is a concurrent set; `Seen` is
`sync.Map.LoadOrStore`, an atomic test-and-mark.  A run of the process is
embedded as the sequence of `Seen` calls it performs, threaded through the
explicit set state; the atomicity of the Go operation is what justifies
this sequential interleaving model. -/

/-- The set of keys already marked, as an explicit state. -/
abbrev DedupState := List String

/-- `Seen` of internal/dedup/memory.go: `LoadOrStore` returns whether the
key was already present and stores it if absent. -/
def seenMem (d : DedupState) (k : String) : Bool × DedupState :=
  if d.contains k then (true, d) else (false, k :: d)

/-- The results of a sequence of `Seen` calls starting from state `d`. -/
def seenResults (d : DedupState) : List String → List Bool
  | [] => []
  | k :: ks =>
    let r := seenMem d k
    r.1 :: seenResults r.2 ks

/-- The final deduplicator state after a sequence of `Seen` calls. -/
def seenFinal (d : DedupState) : List String → DedupState
  | [] => d
  | k :: ks => seenFinal (seenMem d k).2 ks

/-- How many calls with key `k` in the run `ks` returned `false`. -/
def falseCount (d : DedupState) (ks : List String) (k : String) : Nat :=
  (((seenResults d ks).zip ks).filter (fun p => p.2 = k ∧ p.1 = false)).length

/-! ## Per-host circuit breaker (internal/circuitbreaker/breaker.go)

States, counters and the transition functions are embedded one-to-one.
`time.Time` is embedded as a natural number of time units (the zero value
is `0`, `IsZero` is the test for `0`, `Before` is `<`, `Add` is `+`), and
`float64` ratios as exact fractions given by a numerator and
denominator pair, with the wired `FailureRatio 0.6` becoming `3/5`; the
guard `failures/total >= ratio` is embedded as the cross-multiplied
comparison on naturals.  The `OnStateChange` callback carries no state and is
dropped. -/

/-- `State` of breaker.go. -/
inductive CBState
  | stateClosed
  | stateOpen
  | stateHalfOpen
deriving DecidableEq, Repr

/-- `Config` of breaker.go; `failRatioNum / failRatioDen` is
`FailureRatio`. -/
structure CBConfig where
  maxRequests : Nat
  interval : Nat
  timeout : Nat
  threshold : Nat
  failRatioNum : Nat
  failRatioDen : Nat
deriving DecidableEq, Repr

/-- `counts` of breaker.go. -/
structure CBCounts where
  requests : Nat
  total : Nat
  failures : Nat
deriving DecidableEq, Repr

/-- `CircuitBreaker` of breaker.go. -/
structure CB where
  config : CBConfig
  state : CBState
  counts : CBCounts
  expiry : Nat
  lastOpened : Nat
deriving DecidableEq, Repr

/-- The two distinguished errors of breaker.go. -/
inductive CBErr
  | errOpenState
  | errTooManyRequests
deriving DecidableEq, Repr

/-- `New` of breaker.go: zero `MaxRequests`, `Interval`, `Timeout` are
replaced by their defaults (1, 60 s, 60 s, here in seconds). -/
def newCB (cfg : CBConfig) : CB :=
  let cfg := if cfg.maxRequests = 0 then { cfg with maxRequests := 1 } else cfg
  let cfg := if cfg.interval = 0 then { cfg with interval := 60 } else cfg
  let cfg := if cfg.timeout = 0 then { cfg with timeout := 60 } else cfg
  { config := cfg, state := .stateClosed, counts := ⟨0, 0, 0⟩, expiry := 0, lastOpened := 0 }

/-- `toNewGeneration` of breaker.go: reset counters, set the expiry for
the new generation. -/
def toNewGeneration (cb : CB) (now : Nat) : CB :=
  let cb := { cb with counts := ⟨0, 0, 0⟩ }
  match cb.state with
  | .stateClosed => { cb with expiry := now + cb.config.interval }
  | .stateOpen => { cb with expiry := now + cb.config.timeout }
  | .stateHalfOpen => { cb with expiry := 0 }

/-- `setState` of breaker.go: a same-state call only refreshes the
expiry; a state change starts a new generation at `u`. -/
def setState (cb : CB) (s : CBState) (u : Nat) : CB :=
  if cb.state = s then { cb with expiry := u }
  else toNewGeneration { cb with state := s } u

/-- `currentState` of breaker.go: rotate the generation of an expired
closed interval; move an expired open state to half-open.  The mutated
breaker is returned, and the returned pair of the Go function is read
off as its `state` and `expiry` fields. -/
def currentState (cb : CB) (now : Nat) : CB :=
  match cb.state with
  | .stateClosed =>
    if cb.expiry ≠ 0 ∧ cb.expiry < now then toNewGeneration cb now else cb
  | .stateOpen =>
    if cb.expiry < now then setState cb .stateHalfOpen now else cb
  | .stateHalfOpen => cb

/-- `beforeRequest` of breaker.go. -/
def beforeRequest (cb0 : CB) (now : Nat) : CB × Option CBErr :=
  let cb := currentState cb0 now
  let st := cb.state
  let generation := cb.expiry
  match st with
  | .stateOpen => (cb, some .errOpenState)
  | .stateHalfOpen =>
    if cb.counts.requests ≥ cb.config.maxRequests then
      (cb, some .errTooManyRequests)
    else
      let cb := { cb with counts := { cb.counts with requests := cb.counts.requests + 1 } }
      (setState cb st generation, none)
  | .stateClosed =>
    let cb := { cb with counts := { cb.counts with requests := cb.counts.requests + 1 } }
    (setState cb st generation, none)

/-- `onClosed` of breaker.go. -/
def onClosed (cb : CB) (now : Nat) (success : Bool) : CB :=
  let cb := { cb with counts := { cb.counts with
    total := cb.counts.total + 1,
    failures := cb.counts.failures + (if success then 0 else 1) } }
  if cb.counts.total ≥ cb.config.threshold ∧
      cb.counts.failures * cb.config.failRatioDen ≥ cb.config.failRatioNum * cb.counts.total then
    setState { cb with lastOpened := now } .stateOpen now
  else cb

/-- `onHalfOpen` of breaker.go. -/
def onHalfOpen (cb : CB) (now : Nat) (success : Bool) : CB :=
  if success then
    let cb := { cb with counts := { cb.counts with total := cb.counts.total + 1 } }
    if cb.counts.total ≥ cb.config.threshold then setState cb .stateClosed now else cb
  else setState cb .stateOpen now

/-- `afterRequest` of breaker.go.  Note that the captured pre-handler
`st` and `generation` are fed back into the trailing `setState`, exactly
as in the source. -/
def afterRequest (cb0 : CB) (now : Nat) (success : Bool) : CB :=
  let cb := currentState cb0 now
  let st := cb.state
  let generation := cb.expiry
  let cb :=
    match st with
    | .stateClosed => onClosed cb now success
    | .stateHalfOpen => onHalfOpen cb now success
    | .stateOpen => cb
  setState cb st generation

/-- `Execute` of breaker.go, with the wrapped call abstracted to its
success bit; `t1` is the clock at `beforeRequest`, `t2` at
`afterRequest`. -/
def executeCB (cb : CB) (t1 t2 : Nat) (success : Bool) : CB × Option CBErr :=
  match beforeRequest cb t1 with
  | (cb1, some e) => (cb1, some e)
  | (cb1, none) => (afterRequest cb1 t2 success, none)

/-- The per-host configuration wired in `NewResilientClient`
(MaxRequests 3, Interval 60 s, Timeout 30 s, Threshold 5,
FailureRatio 0.6). -/
def wiredCBConfig : CBConfig := ⟨3, 60, 30, 5, 3, 5⟩

/-- A breaker of the wired per-host configuration sitting in the
half-open state (as produced by `toNewGeneration`: fresh counters,
zero expiry). -/
def halfOpenWiredCB : CB :=
  ⟨wiredCBConfig, .stateHalfOpen, ⟨0, 0, 0⟩, 0, 0⟩

/-- The configuration of the package test `TestCircuitBreaker_HalfOpenState`
(MaxRequests 2, Interval 1 min, Timeout 50 ms, Threshold 2,
FailureRatio 0.5; in milliseconds). -/
def testHalfOpenCfg : CBConfig := ⟨2, 60000, 50, 2, 1, 2⟩

/-- A breaker in the open state whose open generation started at
`entered`. -/
def openCB (cfg : CBConfig) (c : CBCounts) (lastO entered : Nat) : CB :=
  ⟨cfg, .stateOpen, c, entered + cfg.timeout, lastO⟩



/-! ## String helpers

The Go string operations used by the embedded code, written over the
character list of the string so that the kernel can evaluate them on
concrete inputs (`strings.ToLower` is embedded as the per-character
ASCII case mapping). -/

/-- `strings.ToLower`. -/
def lowerStr (s : String) : String := ⟨s.data.map Char.toLower⟩

/-- `strings.HasSuffix` and the suffix test of `TrimSuffix`. -/
def endsWithStr (s suf : String) : Bool := suf.data.isSuffixOf s.data

/-- `strings.HasPrefix`. -/
def startsWithStr (s pre : String) : Bool := pre.data.isPrefixOf s.data

/-- Drop the last `n` characters. -/
def dropRightStr (s : String) (n : Nat) : String :=
  ⟨s.data.take (s.data.length - n)⟩

/-- `strings.TrimSpace`. -/
def trimStr (s : String) : String :=
  ⟨((s.data.dropWhile Char.isWhitespace).reverse.dropWhile Char.isWhitespace).reverse⟩

/-! ## Robots cache (internal/robots/cache.go)

The HTTP fetch is abstracted as a function from URL to an optional
response; `none` is a transport error from `c.hc.Do`.  The value cached
and returned is embedded as the byte string handed to
`robotstxt.FromBytes`; the empty string is the allow-all value
`FromBytes([]byte)`, and `robotstxt` itself (an external library) is not
modelled.  The LRU is embedded as an association list (capacity and TTL
do not matter for the checked property). -/

/-- An HTTP response as the robots fetch sees it. -/
structure FetchResp where
  status : Nat
  body : String
deriving DecidableEq, Repr

/-- Observable outcome of `Get` on one host: the byte string fed to the
parser for the returned value, the URLs fetched in order, and the
returned error. -/
structure RobotsGetResult where
  parsedBody : String
  attempts : List String
  fetchErr : Option Unit
deriving DecidableEq, Repr

/-- The robots LRU, keyed by host. -/
abbrev RobotsCacheState := List (String × String)

/-- The URL loop of `Get`: transport error or a status that is neither
2xx nor 404 means try the next URL; 404 yields allow-all; 2xx yields the
parsed body; an exhausted loop yields allow-all (fail-open). -/
def robotsGetLoop (fetch : String → Option FetchResp) :
    List String → List String → String × List String
  | [], tried => ("", tried)
  | ru :: rest, tried =>
    match fetch ru with
    | none => robotsGetLoop fetch rest (tried ++ [ru])
    | some resp =>
      if resp.status = 404 then ("", tried ++ [ru])
      else if 200 ≤ resp.status ∧ resp.status < 300 then (resp.body, tried ++ [ru])
      else robotsGetLoop fetch rest (tried ++ [ru])

/-- `Get` of cache.go: answer from the cache when present, otherwise run
the URL loop over the https then http robots URLs and cache the result.
Every return site of the source returns a nil error. -/
def robotsGet (fetch : String → Option FetchResp) (st : RobotsCacheState)
    (host : String) : RobotsGetResult × RobotsCacheState :=
  match st.lookup host with
  | some v => (⟨v, [], none⟩, st)
  | none =>
    let urls := ["https://" ++ host ++ "/robots.txt", "http://" ++ host ++ "/robots.txt"]
    let r := robotsGetLoop fetch urls []
    (⟨r.1, r.2, none⟩, (host, r.1) :: st)

/-- `ShouldSkipByTLD` of cache.go. -/
def shouldSkipByTLD (host : String) (excluded : List String) : Bool :=
  excluded.any (fun t => endsWithStr host ("." ++ t) || host == t)

/-- A concrete fetch used by witnesses: https fails at the transport,
http answers 200 with body X. -/
def fetchHTTPSDown : String → Option FetchResp := fun u =>
  if u = "http://h/robots.txt" then some ⟨200, "X"⟩ else none

/-! ## Apex and link extraction (internal/extract/extract.go)

`publicsuffix.EffectiveTLDPlusOne` is an external library lookup and is
abstracted as `psl`, returning `none` on error.  `url.Parse` composed
with `Hostname()` is abstracted as `urlParse`, returning `none` on a
parse error. -/

/-- What the extractor reads off a parsed URL. -/
structure URLInfo where
  hostname : String
deriving DecidableEq, Repr

/-- `Apex` of extract.go: lowercase, then public-suffix-plus-one with
the lowercased host as the fallback on error. -/
def Apex (psl : String → Option String) (host : String) : String :=
  let h := lowerStr host
  match psl h with
  | some e => e
  | none => h

/-- The loop of `ExternalDomains`: parse, lowercase the hostname, skip
empty hostnames, skip hostnames sharing the base apex, skip hostnames
already seen, otherwise record.  `seen` is the membership map of the
source. -/
def extDomLoop (psl : String → Option String) (urlParse : String → Option URLInfo)
    (baseApex : String) : List String → List String → List String
  | _, [] => []
  | seen, s :: rest =>
    match urlParse s with
    | none => extDomLoop psl urlParse baseApex seen rest
    | some u =>
      let h := lowerStr u.hostname
      if h = "" then extDomLoop psl urlParse baseApex seen rest
      else if Apex psl h = baseApex then extDomLoop psl urlParse baseApex seen rest
      else if seen.contains h then extDomLoop psl urlParse baseApex seen rest
      else h :: extDomLoop psl urlParse baseApex (h :: seen) rest

/-- `ExternalDomains` of extract.go. -/
def ExternalDomains (psl : String → Option String) (urlParse : String → Option URLInfo)
    (baseHost : String) (urls : List String) : List String :=
  extDomLoop psl urlParse (Apex psl baseHost) [] urls

/-- The candidate hostnames of the specification, in document order: the
lowercased hostname of every parseable candidate whose hostname is
nonempty and whose apex differs from the apex of the base host. -/
def externalCandidates (psl : String → Option String) (urlParse : String → Option URLInfo)
    (baseHost : String) (urls : List String) : List String :=
  urls.filterMap fun s =>
    match urlParse s with
    | none => none
    | some u =>
      let h := lowerStr u.hostname
      if h = "" then none
      else if Apex psl h = Apex psl baseHost then none
      else some h

/-- First-occurrence deduplication, relative to an already-seen set. -/
def dedupFirstGo (seen : List String) : List String → List String
  | [] => []
  | h :: t => if seen.contains h then dedupFirstGo seen t else h :: dedupFirstGo (h :: seen) t

/-- First-occurrence deduplication. -/
def dedupFirst (l : List String) : List String := dedupFirstGo [] l

/-- The return value the specification describes for `ExternalDomains`:
the unique external hostnames in document order. -/
def externalDomainsSpec (psl : String → Option String) (urlParse : String → Option URLInfo)
    (baseHost : String) (urls : List String) : List String :=
  dedupFirst (externalCandidates psl urlParse baseHost urls)

/-- A concrete public-suffix function used by witnesses: everything is
its own suffix-plus-one except two-label iana hosts. -/
def pslNone : String → Option String := fun _ => none

/-- A concrete URL parser used by witnesses: the candidate string is its
own hostname, and the single string bad fails to parse. -/
def urlParseEx : String → Option URLInfo := fun s =>
  if s = "bad" then none else some ⟨s⟩

/-! ## Batch emitter (internal/emit/emit.go)

The node, edge and batch types of package emit; timestamps are naturals
and `Type` of the edge is the field `etype` (`Type` is reserved in
Lean).  JSON encoding and decoding are external (`encoding/json`) and
are abstracted as an encoder and a decoder function; the POST with its
exponential backoff capped at 30 s of elapsed time is abstracted as the
predicate `postOK` giving the outcome after retries are exhausted.  The
spool directory is the list of file contents in directory order, and
stdout is a list of emitted lines.  The emitter loop is a single task
and `flush` holds the accumulator lock for its whole body, so the
sequential state-passing model is faithful. -/

/-- `emit.NodeDomain`. -/
structure NodeDomain where
  host : String
  apex : String
  firstSeen : Nat
  lastSeen : Nat
deriving DecidableEq, Repr

/-- `emit.NodeIP`. -/
structure NodeIP where
  ip : String
  firstSeen : Nat
  lastSeen : Nat
deriving DecidableEq, Repr

/-- `emit.NodeCert`. -/
structure NodeCert where
  spki : String
  subjectCN : String
  issuerCN : String
  notBefore : Nat
  notAfter : Nat
deriving DecidableEq, Repr

/-- `emit.Edge`; `etype` is the JSON field `type`. -/
structure Edge where
  etype : String
  source : String
  target : String
  observedAt : Nat
  probeID : String
  runID : String
deriving DecidableEq, Repr

/-- `emit.Batch`. -/
structure Batch where
  probeID : String
  runID : String
  nodesD : List NodeDomain
  nodesIP : List NodeIP
  nodesC : List NodeCert
  edges : List Edge
deriving DecidableEq, Repr

/-- The element count `len(Edges)+len(NodesD)+len(NodesIP)+len(NodesC)`
used by the emptiness test of `flush`. -/
def batchSize (b : Batch) : Nat :=
  b.edges.length + b.nodesD.length + b.nodesIP.length + b.nodesC.length

/-- `Emitter` of emit.go: configuration and mutable state. -/
structure EmitterState where
  ingest : String
  probeID : String
  runID : String
  acc : Batch
  spool : List String
  stdoutLines : List String
deriving DecidableEq, Repr

/-- `append` of emit.go: merge a contribution into the accumulator. -/
def emitterAppend (e : EmitterState) (b : Batch) : EmitterState :=
  { e with acc := { e.acc with
      nodesD := e.acc.nodesD ++ b.nodesD,
      nodesIP := e.acc.nodesIP ++ b.nodesIP,
      nodesC := e.acc.nodesC ++ b.nodesC,
      edges := e.acc.edges ++ b.edges } }

/-- `flush` of emit.go: no-op on an empty accumulator; with no sink the
snapshot goes to stdout; otherwise POST, and on exhausted retries write
the encoded snapshot as a new spool file; in every non-empty case the
accumulator is reset to a fresh batch carrying the probe and run ids. -/
def emitterFlush (enc : Batch → String) (postOK : Batch → Bool)
    (e : EmitterState) : EmitterState :=
  if batchSize e.acc = 0 then e
  else
    let e2 :=
      if e.ingest = "" then { e with stdoutLines := e.stdoutLines ++ [enc e.acc] }
      else if postOK e.acc then e
      else { e with spool := e.spool ++ [enc e.acc] }
    { e2 with acc := ⟨e.probeID, e.runID, [], [], [], []⟩ }

/-- `Drain` of emit.go: flush, then walk the spool directory; a file
that decodes and either has no configured sink or POSTs successfully is
removed, any other file is left in place. -/
def emitterDrain (enc : Batch → String) (dec : String → Option Batch)
    (postOK : Batch → Bool) (e : EmitterState) : EmitterState :=
  let e1 := emitterFlush enc postOK e
  { e1 with spool := e1.spool.filter (fun c =>
      match dec c with
      | none => true
      | some b => if e1.ingest = "" then false else if postOK b then false else true) }

/-- A one-edge batch used by witnesses. -/
def batchA : Batch := ⟨"p", "r", [], [], [], [⟨"LINKS_TO", "a", "b", 0, "p", "r"⟩]⟩

/-- An empty batch used by witnesses. -/
def batchB : Batch := ⟨"p", "r", [], [], [], []⟩

/-- A decoder used by witnesses: file A holds `batchA`, file B holds
`batchB`. -/
def decEx : String → Option Batch := fun c =>
  if c = "A" then some batchA else if c = "B" then some batchB else none

/-- A POST outcome used by witnesses: edge-free batches are accepted,
others are rejected. -/
def postOKEx : Batch → Bool := fun b => b.edges.length = 0

/-- A POST outcome used by witnesses: every POST fails. -/
def postNever : Batch → Bool := fun _ => false

/-- An encoder used by witnesses. -/
def encConstA : Batch → String := fun _ => "A"

/-! ## Crawl pipeline (probe.CrawlOne)

The per-host pipeline.  DNS resolution, the robots answer for the root
path, the root-page GET and the TLS certificate fetch are all network
effects and enter the embedding as an environment record; the
deduplicator is threaded through every `Seen` call in source order.
`CrawlOne` has three return sites, each flushing the accumulators built
so far; the embedding factors this as one final accumulator state
(`crawlFinalSt`) selected by the same branch conditions, flushed once —
the control flow is otherwise line-for-line. -/

/-- The result of `dns.ResolveAll`, after its own trailing-dot
stripping; an errored lookup yields the empty list (or empty string for
the CNAME), exactly as in the source.  TXT records are unused by
`CrawlOne`. -/
structure DNSResult where
  ips : List String
  ns : List String
  cname : String
  mx : List String
deriving DecidableEq, Repr

/-- What `CrawlOne` reads off the root-page response: the Content-Type
header, the status code, and the URL strings `extract.ParseLinks`
produced from the (512 KiB capped) body. -/
structure HTTPResp where
  contentType : String
  status : Nat
  links : List String
deriving DecidableEq, Repr

/-- The network environment of one `CrawlOne` call: DNS answers, the
robots verdict `Allowed(rd, ua, "/")`, the root GET outcome (`none` is a
transport error), and the `FetchCert` outcome (`some` when the fetch
returned a certificate without error). -/
structure CrawlEnv where
  dns : DNSResult
  robotsAllowed : Bool
  httpResp : Option HTTPResp
  cert : Option NodeCert
deriving DecidableEq, Repr

/-- The accumulators of `CrawlOne` plus the deduplicator state. -/
structure CrawlSt where
  nodesD : List NodeDomain
  nodesIP : List NodeIP
  nodesC : List NodeCert
  edges : List Edge
  d : DedupState
deriving DecidableEq, Repr

/-- `strings.Contains`. -/
def containsSub (s pat : String) : Bool := 2 ≤ (s.splitOn pat).length

/-- The edge dedup key `edge|{source}|{type}|{target}`. -/
def edgeKey (host etype target : String) : String :=
  "edge|" ++ host ++ "|" ++ etype ++ "|" ++ target

/-- One iteration of the IP loop of `CrawlOne` (lines 74-78): gate the
IP node on `nodeip|{ip}` and the RESOLVES_TO edge on its edge key. -/
def stepIP (host : String) (now : Nat) (pid rid : String)
    (st : CrawlSt) (ip : String) : CrawlSt :=
  let r1 := seenMem st.d ("nodeip|" ++ ip)
  let st := { st with
    d := r1.2
    nodesIP := if r1.1 then st.nodesIP else st.nodesIP ++ [(⟨ip, now, now⟩ : NodeIP)] }
  let r2 := seenMem st.d ("edge|" ++ host ++ "|RESOLVES_TO|" ++ ip)
  { st with
    d := r2.2
    edges := if r2.1 then st.edges
      else st.edges ++ [(⟨"RESOLVES_TO", host, ip, now, pid, rid⟩ : Edge)] }

/-- One iteration of the NS / CNAME / MX / external-link handling of
`CrawlOne` (lines 79-93 and 121-125), which differ only in the edge
type: gate the domain node on `domain|{n}` and the edge on its edge
key. -/
def stepLinkedDomain (psl : String → Option String) (etype host : String) (now : Nat)
    (pid rid : String) (st : CrawlSt) (n : String) : CrawlSt :=
  let r1 := seenMem st.d ("domain|" ++ n)
  let st := { st with
    d := r1.2
    nodesD := if r1.1 then st.nodesD else st.nodesD ++ [(⟨n, Apex psl n, now, now⟩ : NodeDomain)] }
  let r2 := seenMem st.d (edgeKey host etype n)
  { st with
    d := r2.2
    edges := if r2.1 then st.edges
      else st.edges ++ [(⟨etype, host, n, now, pid, rid⟩ : Edge)] }

/-- The certificate handling of `CrawlOne` (lines 130-134): gate the
cert node on `cert|{spki}` and the USES_CERT edge on its edge key. -/
def stepCert (host : String) (now : Nat) (pid rid : String)
    (st : CrawlSt) (c : NodeCert) : CrawlSt :=
  let r1 := seenMem st.d ("cert|" ++ c.spki)
  let st := { st with
    d := r1.2
    nodesC := if r1.1 then st.nodesC else st.nodesC ++ [c] }
  let r2 := seenMem st.d ("edge|" ++ host ++ "|USES_CERT|" ++ c.spki)
  { st with
    d := r2.2
    edges := if r2.1 then st.edges
      else st.edges ++ [(⟨"USES_CERT", host, c.spki, now, pid, rid⟩ : Edge)] }

/-- The accumulator state after the DNS phase of `CrawlOne` (lines
64-93): the provisional domain node is appended unconditionally, then
the IP, NS, CNAME and MX loops run in source order. -/
def crawlDNSSt (psl : String → Option String) (pid rid host : String) (now : Nat)
    (dns : DNSResult) (d0 : DedupState) : CrawlSt :=
  let st0 : CrawlSt := ⟨[⟨host, Apex psl host, now, now⟩], [], [], [], d0⟩
  let st1 := dns.ips.foldl (stepIP host now pid rid) st0
  let st2 := dns.ns.foldl (stepLinkedDomain psl "USES_NS" host now pid rid) st1
  let st3 := if dns.cname ≠ "" then
      stepLinkedDomain psl "ALIAS_OF" host now pid rid st2 dns.cname
    else st2
  dns.mx.foldl (stepLinkedDomain psl "USES_MX" host now pid rid) st3

/-- The final accumulator state of `CrawlOne`: the DNS-phase state when
the TLD exclusion or the robots verdict short-circuits, otherwise
extended by the external-link loop (when the root GET succeeded with an
HTML 2xx) and the certificate step. -/
def crawlFinalSt (psl : String → Option String) (urlParse : String → Option URLInfo)
    (excluded : List String) (pid rid host : String) (now : Nat)
    (env : CrawlEnv) (d0 : DedupState) : CrawlSt :=
  let st4 := crawlDNSSt psl pid rid host now env.dns d0
  if shouldSkipByTLD host excluded then st4
  else if !env.robotsAllowed then st4
  else
    let st5 :=
      match env.httpResp with
      | none => st4
      | some resp =>
        if containsSub (lowerStr resp.contentType) "text/html"
            ∧ 200 ≤ resp.status ∧ resp.status < 300 then
          (ExternalDomains psl urlParse host resp.links).foldl
            (stepLinkedDomain psl "LINKS_TO" host now pid rid) st4
        else st4
    match env.cert with
    | none => st5
    | some c => stepCert host now pid rid st5 c

/-- `flush` of the probe (lines 139-142): drop an all-empty
contribution, otherwise hand one batch to the emitter channel. -/
def probeFlush (pid rid : String) (st : CrawlSt) : Option Batch :=
  if st.nodesD.length + st.nodesIP.length + st.nodesC.length + st.edges.length = 0
  then none
  else some ⟨pid, rid, st.nodesD, st.nodesIP, st.nodesC, st.edges⟩

/-- `CrawlOne`: the batch handed to the emitter (none when empty) and
the deduplicator state after the call. -/
def crawlOne (psl : String → Option String) (urlParse : String → Option URLInfo)
    (excluded : List String) (pid rid host : String) (now : Nat)
    (env : CrawlEnv) (d0 : DedupState) : Option Batch × DedupState :=
  let stF := crawlFinalSt psl urlParse excluded pid rid host now env d0
  (probeFlush pid rid stF, stF.d)

/-- The work-queue branch of main: a leased host is sent to the worker
channel verbatim, with no normalization. -/
def leaseTask (host : String) : String := host

/-- `strings.TrimSuffix`: strip one occurrence of the suffix. -/
def trimOneSuffix (s suf : String) : String :=
  if endsWithStr s suf then dropRightStr s suf.length else s

/-- The domains-file branch of main (lines 300-313): trim space, skip
blank and comment lines, strip one trailing dot, lowercase. -/
def readDomainsFile (lines : List String) : List String :=
  lines.filterMap fun raw =>
    let line := trimStr raw
    if line = "" then none
    else if startsWithStr line "#" then none
    else some (lowerStr (trimOneSuffix line "."))

/-- An environment used by concrete counterexamples and witnesses:
empty DNS answers, robots disallows, nothing fetched. -/
def env0 : CrawlEnv := ⟨⟨[], [], "", []⟩, false, none, none⟩

/-! ## Theorems -/

theorem seenMem_of_mem {d : DedupState} {k : String} (h : k ∈ d) :
    seenMem d k = (true, d) := by
  simp [seenMem, h]

theorem seenMem_of_not_mem {d : DedupState} {k : String} (h : k ∉ d) :
    seenMem d k = (false, k :: d) := by
  simp [seenMem, h]

theorem mem_seenMem_self (d : DedupState) (k : String) : k ∈ (seenMem d k).2 := by
  by_cases h : k ∈ d
  · rw [seenMem_of_mem h]; exact h
  · rw [seenMem_of_not_mem h]; exact List.mem_cons_self k d

theorem mem_seenMem_mono {d : DedupState} {k2 : String} (k : String)
    (h : k2 ∈ d) : k2 ∈ (seenMem d k).2 := by
  by_cases hc : k ∈ d
  · rw [seenMem_of_mem hc]; exact h
  · rw [seenMem_of_not_mem hc]; exact List.mem_cons_of_mem k h

theorem seenResults_cons (d : DedupState) (k2 : String) (ks : List String) :
    seenResults d (k2 :: ks) = (seenMem d k2).1 :: seenResults (seenMem d k2).2 ks := rfl

/-- Unfolding equation for `falseCount` over one call. -/
theorem falseCount_cons (d : DedupState) (k2 k : String) (ks : List String) :
    falseCount d (k2 :: ks) k =
      (if k2 = k ∧ (seenMem d k2).1 = false then 1 else 0)
        + falseCount (seenMem d k2).2 ks k := by
  unfold falseCount
  rw [seenResults_cons, List.zip_cons_cons, List.filter_cons]
  by_cases h : k2 = k ∧ (seenMem d k2).1 = false
  · obtain ⟨h1, h2⟩ := h
    subst h1
    simp [h2, Nat.add_comm]
  · rw [if_neg h]
    simp only [not_and] at h
    by_cases hk : k2 = k
    · have h3 : (seenMem d k2).1 = true := by
        cases hfst : (seenMem d k2).1
        · exact absurd hfst (h hk)
        · rfl
      subst hk
      simp [h3]
    · simp [hk]

/-- Once a key is in the state, every later call with that key returns
`true` and so contributes no `false` result. -/
theorem falseCount_zero_of_mem (d : DedupState) (ks : List String)
    (k : String) (h : k ∈ d) : falseCount d ks k = 0 := by
  induction ks generalizing d with
  | nil => rfl
  | cons k2 ks ih =>
    rw [falseCount_cons]
    have hcond : ¬(k2 = k ∧ (seenMem d k2).1 = false) := by
      rintro ⟨rfl, hf⟩
      rw [seenMem_of_mem h] at hf
      cases hf
    rw [if_neg hcond, Nat.zero_add]
    exact ih _ (mem_seenMem_mono k2 h)

/-- In any run, a given key produces at most one `false` answer. -/
theorem falseCount_le_one (d : DedupState) (ks : List String) (k : String) :
    falseCount d ks k ≤ 1 := by
  induction ks generalizing d with
  | nil => exact Nat.zero_le 1
  | cons k2 ks ih =>
    rw [falseCount_cons]
    by_cases hcond : k2 = k ∧ (seenMem d k2).1 = false
    · rw [if_pos hcond]
      have hz : falseCount (seenMem d k2).2 ks k = 0 := by
        obtain ⟨rfl, hf⟩ := hcond
        exact falseCount_zero_of_mem _ ks k2 (mem_seenMem_self d k2)
      omega
    · rw [if_neg hcond, Nat.zero_add]
      exact ih _

/-- Once a key is in the state, every later call with that key answers
`true`. -/
theorem seenResults_true_of_mem (d : DedupState) (ks : List String)
    (k : String) (j : Nat) (h : k ∈ d) (hjk : ks[j]? = some k) :
    (seenResults d ks)[j]? = some true := by
  induction ks generalizing d j with
  | nil => simp at hjk
  | cons k2 ks ih =>
    cases j with
    | zero =>
      simp only [List.getElem?_cons_zero, Option.some.injEq] at hjk
      subst hjk
      simp [seenResults, seenMem_of_mem h]
    | succ j =>
      simp only [List.getElem?_cons_succ] at hjk
      unfold seenResults
      simpa using ih (seenMem d k2).2 j (mem_seenMem_mono k2 h) hjk

/-- After the call at position `i` with key `k`, the key is in the state. -/
theorem mem_state_after_call (d : DedupState) (ks : List String)
    (k : String) (i : Nat) (hik : ks[i]? = some k) (j : Nat) (hij : i < j)
    (hjk : ks[j]? = some k) : (seenResults d ks)[j]? = some true := by
  induction ks generalizing d i j with
  | nil => simp at hik
  | cons k2 ks ih =>
    cases i with
    | zero =>
      simp only [List.getElem?_cons_zero, Option.some.injEq] at hik
      subst hik
      cases j with
      | zero => cases hij
      | succ j =>
        simp only [List.getElem?_cons_succ] at hjk
        unfold seenResults
        have hmem : k2 ∈ (seenMem d k2).2 := mem_seenMem_self d k2
        simpa using seenResults_true_of_mem _ ks k2 j hmem hjk
    | succ i =>
      cases j with
      | zero => cases hij
      | succ j =>
        simp only [List.getElem?_cons_succ] at hik hjk
        unfold seenResults
        simpa using ih (seenMem d k2).2 i hik j (Nat.lt_of_succ_lt_succ hij) hjk

/-- C4: for the in-memory deduplicator, within one run (a sequence of
`Seen` calls starting from the empty set of `NewMemory`), `Seen(k)`
returns `false` at most once for every key `k`, and whenever positions
`i < j` of the run carry the same key, the call at position `j` returns
`true`.  The test-and-mark is the single atomic step `seenMem`, the
embedding of `sync.Map.LoadOrStore`. -/
theorem memory_dedup_contract (ks : List String) (k : String) (i j : Nat)
    (hij : i < j) (hik : ks[i]? = some k) (hjk : ks[j]? = some k) :
    falseCount [] ks k ≤ 1 ∧ (seenResults [] ks)[j]? = some true :=
  ⟨falseCount_le_one [] ks k, mem_state_after_call [] ks k i hik j hij hjk⟩

/-- Witness for C4 at the concrete run a, b, a. -/
theorem memory_dedup_contract_witness :
    falseCount [] ["a", "b", "a"] "a" ≤ 1 ∧
      (seenResults [] ["a", "b", "a"])[2]? = some true :=
  memory_dedup_contract ["a", "b", "a"] "a" 0 2 (by decide) (by decide) (by decide)

/-- C3: from the open state entered at `entered` (expiry
`entered + timeout`), every call up to and including
`entered + timeout` is rejected with the distinguished open-state error
and the breaker is unchanged; at any later instant the breaker moves to
half-open and the call is admitted. -/
theorem breaker_open_semantics (cfg : CBConfig) (c : CBCounts)
    (lastO entered now : Nat) (hmax : 1 ≤ cfg.maxRequests) :
    (now ≤ entered + cfg.timeout →
      beforeRequest (openCB cfg c lastO entered) now =
        (openCB cfg c lastO entered, some CBErr.errOpenState)) ∧
    (entered + cfg.timeout < now →
      (beforeRequest (openCB cfg c lastO entered) now).2 = none ∧
      (beforeRequest (openCB cfg c lastO entered) now).1.state = CBState.stateHalfOpen) := by
  constructor
  · intro h
    have hnl : ¬ (entered + cfg.timeout < now) := Nat.not_lt.mpr h
    simp [beforeRequest, currentState, openCB, hnl]
  · intro h
    have hreq : ¬ (0 ≥ cfg.maxRequests) := by omega
    simp [beforeRequest, currentState, openCB, setState, toNewGeneration, h, hreq]

/-- Witness for C3 with the wired per-host configuration: open entered
at 0, timeout 30; the call at instant 30 is rejected with the open
error, the call at instant 31 is admitted in half-open. -/
theorem breaker_open_semantics_witness :
    beforeRequest (openCB wiredCBConfig ⟨0, 0, 0⟩ 0 0) 30 =
      (openCB wiredCBConfig ⟨0, 0, 0⟩ 0 0, some CBErr.errOpenState) ∧
    ((beforeRequest (openCB wiredCBConfig ⟨0, 0, 0⟩ 0 0) 31).2 = none ∧
      (beforeRequest (openCB wiredCBConfig ⟨0, 0, 0⟩ 0 0) 31).1.state =
        CBState.stateHalfOpen) :=
  ⟨(breaker_open_semantics wiredCBConfig ⟨0, 0, 0⟩ 0 0 30 (by decide)).1 (by decide),
   (breaker_open_semantics wiredCBConfig ⟨0, 0, 0⟩ 0 0 31 (by decide)).2 (by decide)⟩

/-- C2: evaluation of breaker.go at the claimed half-open behaviour.
First conjunct: from the wired half-open state, a single failed trial
leaves the breaker half-open with reset counters instead of open (the
trailing `setState st generation` of `afterRequest` undoes the
transition `onHalfOpen` makes).  Second conjunct: three successful
trials leave it half-open with success count 3, and the fourth call is
rejected with the too-many-requests error, so the success count can
never reach the wired closed-state threshold 5 and the breaker never
returns to closed.  Third conjunct: the scenario of the package test
`TestCircuitBreaker_HalfOpenState` (two failed calls from a fresh
breaker with threshold 2) ends closed, although that test asserts
`StateOpen`. -/
theorem breaker_halfopen_diverges :
    ((executeCB halfOpenWiredCB 1 2 false).1.state = CBState.stateHalfOpen ∧
      (executeCB halfOpenWiredCB 1 2 false).1.counts = ⟨0, 0, 0⟩) ∧
    ((executeCB (executeCB (executeCB halfOpenWiredCB 1 1 true).1 2 2 true).1
          3 3 true).1.state = CBState.stateHalfOpen ∧
      (executeCB (executeCB (executeCB halfOpenWiredCB 1 1 true).1 2 2 true).1
          3 3 true).1.counts.total = 3 ∧
      (beforeRequest (executeCB (executeCB (executeCB halfOpenWiredCB 1 1 true).1
          2 2 true).1 3 3 true).1 4).2 = some CBErr.errTooManyRequests) ∧
    (executeCB (executeCB (newCB testHalfOpenCfg) 1 1 false).1 2 2 false).1.state
        = CBState.stateClosed := by
  decide

theorem https_url_ne_http_url (host : String) :
    ("http://" ++ host ++ "/robots.txt") ≠ ("https://" ++ host ++ "/robots.txt") := by
  intro he
  have hl := congrArg String.length he
  simp only [String.length_append] at hl
  have h1 : ("http://").length = 7 := rfl
  have h2 : ("https://").length = 8 := rfl
  have h3 : ("/robots.txt").length = 11 := rfl
  omega

/-- C5: on a cache miss, `Get` tries the https robots URL first and
tries the http URL exactly when https had a transport error or a status
that is neither 2xx nor 404; a 2xx answer is parsed and cached and a 404
caches the allow-all value, on whichever attempt it arrives (https, or
the http fallback after https failed over); when every attempt fails —
by transport error or by a status that is neither 2xx nor 404 — the
allow-all value is cached and returned; and the returned error is nil
in every case. -/
theorem robots_get_fail_open (fetch : String → Option FetchResp)
    (st : RobotsCacheState) (host : String)
    (hmiss : st.lookup host = none) :
    ((robotsGet fetch st host).1.fetchErr = none) ∧
    (("http://" ++ host ++ "/robots.txt") ∈ (robotsGet fetch st host).1.attempts ↔
      (fetch ("https://" ++ host ++ "/robots.txt") = none ∨
        ∃ resp, fetch ("https://" ++ host ++ "/robots.txt") = some resp ∧
          resp.status ≠ 404 ∧ ¬(200 ≤ resp.status ∧ resp.status < 300))) ∧
    (∀ resp, fetch ("https://" ++ host ++ "/robots.txt") = some resp →
      200 ≤ resp.status → resp.status < 300 →
      (robotsGet fetch st host).1.parsedBody = resp.body ∧
        (robotsGet fetch st host).2.lookup host = some resp.body) ∧
    (∀ resp, fetch ("https://" ++ host ++ "/robots.txt") = some resp →
      resp.status = 404 →
      (robotsGet fetch st host).1.parsedBody = "" ∧
        (robotsGet fetch st host).2.lookup host = some "") ∧
    (fetch ("https://" ++ host ++ "/robots.txt") = none →
      fetch ("http://" ++ host ++ "/robots.txt") = none →
      (robotsGet fetch st host).1.parsedBody = "" ∧
        (robotsGet fetch st host).2.lookup host = some "") ∧
    (∀ resp2, (fetch ("https://" ++ host ++ "/robots.txt") = none ∨
        ∃ resp, fetch ("https://" ++ host ++ "/robots.txt") = some resp ∧
          resp.status ≠ 404 ∧ ¬(200 ≤ resp.status ∧ resp.status < 300)) →
      fetch ("http://" ++ host ++ "/robots.txt") = some resp2 →
      200 ≤ resp2.status → resp2.status < 300 →
      (robotsGet fetch st host).1.parsedBody = resp2.body ∧
        (robotsGet fetch st host).2.lookup host = some resp2.body) ∧
    (∀ resp2, (fetch ("https://" ++ host ++ "/robots.txt") = none ∨
        ∃ resp, fetch ("https://" ++ host ++ "/robots.txt") = some resp ∧
          resp.status ≠ 404 ∧ ¬(200 ≤ resp.status ∧ resp.status < 300)) →
      fetch ("http://" ++ host ++ "/robots.txt") = some resp2 →
      resp2.status = 404 →
      (robotsGet fetch st host).1.parsedBody = "" ∧
        (robotsGet fetch st host).2.lookup host = some "") ∧
    ((fetch ("https://" ++ host ++ "/robots.txt") = none ∨
        ∃ resp, fetch ("https://" ++ host ++ "/robots.txt") = some resp ∧
          resp.status ≠ 404 ∧ ¬(200 ≤ resp.status ∧ resp.status < 300)) →
      (fetch ("http://" ++ host ++ "/robots.txt") = none ∨
        ∃ resp2, fetch ("http://" ++ host ++ "/robots.txt") = some resp2 ∧
          resp2.status ≠ 404 ∧ ¬(200 ≤ resp2.status ∧ resp2.status < 300)) →
      (robotsGet fetch st host).1.parsedBody = "" ∧
        (robotsGet fetch st host).2.lookup host = some "") := by
  have hne := https_url_ne_http_url host
  refine ⟨?_, ?_, ?_, ?_, ?_, ?_, ?_, ?_⟩
  · cases hf1 : fetch ("https://" ++ host ++ "/robots.txt") with
    | none =>
      cases hf2 : fetch ("http://" ++ host ++ "/robots.txt") with
      | none => simp [robotsGet, robotsGetLoop, hmiss, hf1, hf2]
      | some r2 =>
        by_cases h4 : r2.status = 404
        · simp [robotsGet, robotsGetLoop, hmiss, hf1, hf2, h4]
        · by_cases h2 : 200 ≤ r2.status ∧ r2.status < 300 <;>
            simp [robotsGet, robotsGetLoop, hmiss, hf1, hf2, h4, h2]
    | some r1 =>
      by_cases h4 : r1.status = 404
      · simp [robotsGet, robotsGetLoop, hmiss, hf1, h4]
      · by_cases h2 : 200 ≤ r1.status ∧ r1.status < 300
        · simp [robotsGet, robotsGetLoop, hmiss, hf1, h4, h2]
        · cases hf2 : fetch ("http://" ++ host ++ "/robots.txt") with
          | none => simp [robotsGet, robotsGetLoop, hmiss, hf1, hf2, h4, h2]
          | some r2 =>
            by_cases h4b : r2.status = 404
            · simp [robotsGet, robotsGetLoop, hmiss, hf1, hf2, h4, h2, h4b]
            · by_cases h2b : 200 ≤ r2.status ∧ r2.status < 300 <;>
                simp [robotsGet, robotsGetLoop, hmiss, hf1, hf2, h4, h2, h4b, h2b]
  · cases hf1 : fetch ("https://" ++ host ++ "/robots.txt") with
    | none =>
      cases hf2 : fetch ("http://" ++ host ++ "/robots.txt") with
      | none => simp [robotsGet, robotsGetLoop, hmiss, hf1, hf2]
      | some r2 =>
        by_cases h4 : r2.status = 404
        · simp [robotsGet, robotsGetLoop, hmiss, hf1, hf2, h4]
        · by_cases h2 : 200 ≤ r2.status ∧ r2.status < 300 <;>
            simp [robotsGet, robotsGetLoop, hmiss, hf1, hf2, h4, h2]
    | some r1 =>
      by_cases h4 : r1.status = 404
      · simp [robotsGet, robotsGetLoop, hmiss, hf1, h4, hne]
      · by_cases h2 : 200 ≤ r1.status ∧ r1.status < 300
        · simp [robotsGet, robotsGetLoop, hmiss, hf1, h4, h2, hne]
        · cases hf2 : fetch ("http://" ++ host ++ "/robots.txt") with
          | none =>
            simp [robotsGet, robotsGetLoop, hmiss, hf1, hf2, h4, h2]
            omega
          | some r2 =>
            by_cases h4b : r2.status = 404
            · simp [robotsGet, robotsGetLoop, hmiss, hf1, hf2, h4, h2, h4b]
              omega
            · by_cases h2b : 200 ≤ r2.status ∧ r2.status < 300 <;>
                simp [robotsGet, robotsGetLoop, hmiss, hf1, hf2, h4, h2, h4b, h2b] <;>
                omega
  · intro resp hf1 hlo hhi
    have h4 : ¬ resp.status = 404 := by omega
    simp [robotsGet, robotsGetLoop, hmiss, hf1, h4, hlo, hhi, List.lookup]
  · intro resp hf1 h4
    simp [robotsGet, robotsGetLoop, hmiss, hf1, h4, List.lookup]
  · intro hf1 hf2
    simp [robotsGet, robotsGetLoop, hmiss, hf1, hf2, List.lookup]
  · intro r2 hfo hf2 hlo hhi
    have h4b : ¬ r2.status = 404 := by omega
    rcases hfo with hf1 | ⟨r1, hf1, h4, h2⟩
    · simp [robotsGet, robotsGetLoop, hmiss, hf1, hf2, h4b, hlo, hhi, List.lookup]
    · simp [robotsGet, robotsGetLoop, hmiss, hf1, hf2, h4, h2, h4b, hlo, hhi, List.lookup]
  · intro r2 hfo hf2 h4b
    rcases hfo with hf1 | ⟨r1, hf1, h4, h2⟩
    · simp [robotsGet, robotsGetLoop, hmiss, hf1, hf2, h4b, List.lookup]
    · simp [robotsGet, robotsGetLoop, hmiss, hf1, hf2, h4, h2, h4b, List.lookup]
  · intro hfo hfo2
    rcases hfo with hf1 | ⟨r1, hf1, h4, h2⟩
    · rcases hfo2 with hf2 | ⟨r2, hf2, h4b, h2b⟩
      · simp [robotsGet, robotsGetLoop, hmiss, hf1, hf2, List.lookup]
      · simp [robotsGet, robotsGetLoop, hmiss, hf1, hf2, h4b, h2b, List.lookup]
    · rcases hfo2 with hf2 | ⟨r2, hf2, h4b, h2b⟩
      · simp [robotsGet, robotsGetLoop, hmiss, hf1, h4, h2, hf2, List.lookup]
      · simp [robotsGet, robotsGetLoop, hmiss, hf1, h4, h2, hf2, h4b, h2b, List.lookup]

/-- Witness for C5: with https down at the transport level and http
answering 200 with body X, the miss-path Get returns no error, fell back
to the http URL, and parsed and cached the http body. -/
theorem robots_get_fail_open_witness :
    (robotsGet fetchHTTPSDown [] "h").1.fetchErr = none ∧
      ("http://h/robots.txt") ∈ (robotsGet fetchHTTPSDown [] "h").1.attempts ∧
      (robotsGet fetchHTTPSDown [] "h").1.parsedBody = "X" :=
  ⟨(robots_get_fail_open fetchHTTPSDown [] "h" rfl).1,
   ((robots_get_fail_open fetchHTTPSDown [] "h" rfl).2.1).mpr (Or.inl (by decide)),
   ((robots_get_fail_open fetchHTTPSDown [] "h" rfl).2.2.2.2.2.1 ⟨200, "X"⟩
     (Or.inl (by decide)) (by decide) (by decide) (by decide)).1⟩

/-- The loop of `ExternalDomains` computes first-occurrence
deduplication of the candidate list of the specification. -/
theorem extDomLoop_eq_dedupFirstGo (psl : String → Option String)
    (urlParse : String → Option URLInfo) (baseHost : String) (urls : List String) :
    ∀ seen, extDomLoop psl urlParse (Apex psl baseHost) seen urls
      = dedupFirstGo seen (externalCandidates psl urlParse baseHost urls) := by
  induction urls with
  | nil => intro seen; rfl
  | cons s rest ih =>
    intro seen
    cases hp : urlParse s with
    | none =>
      have hl : extDomLoop psl urlParse (Apex psl baseHost) seen (s :: rest)
          = extDomLoop psl urlParse (Apex psl baseHost) seen rest := by
        simp [extDomLoop, hp]
      have hc : externalCandidates psl urlParse baseHost (s :: rest)
          = externalCandidates psl urlParse baseHost rest := by
        simp [externalCandidates, List.filterMap_cons, hp]
      rw [hl, hc]
      exact ih seen
    | some u =>
      by_cases hh : (lowerStr u.hostname) = ""
      · have hl : extDomLoop psl urlParse (Apex psl baseHost) seen (s :: rest)
            = extDomLoop psl urlParse (Apex psl baseHost) seen rest := by
          simp [extDomLoop, hp, hh]
        have hc : externalCandidates psl urlParse baseHost (s :: rest)
            = externalCandidates psl urlParse baseHost rest := by
          simp [externalCandidates, List.filterMap_cons, hp, hh]
        rw [hl, hc]
        exact ih seen
      · by_cases ha : Apex psl ((lowerStr u.hostname)) = Apex psl baseHost
        · have hl : extDomLoop psl urlParse (Apex psl baseHost) seen (s :: rest)
              = extDomLoop psl urlParse (Apex psl baseHost) seen rest := by
            simp [extDomLoop, hp, hh, ha]
          have hc : externalCandidates psl urlParse baseHost (s :: rest)
              = externalCandidates psl urlParse baseHost rest := by
            simp [externalCandidates, List.filterMap_cons, hp, hh, ha]
          rw [hl, hc]
          exact ih seen
        · have hc : externalCandidates psl urlParse baseHost (s :: rest)
              = (lowerStr u.hostname) :: externalCandidates psl urlParse baseHost rest := by
            simp [externalCandidates, List.filterMap_cons, hp, hh, ha]
          have hl : extDomLoop psl urlParse (Apex psl baseHost) seen (s :: rest)
              = (if seen.contains (lowerStr u.hostname) then
                  extDomLoop psl urlParse (Apex psl baseHost) seen rest
                else (lowerStr u.hostname) ::
                  extDomLoop psl urlParse (Apex psl baseHost) ((lowerStr u.hostname) :: seen) rest) := by
            simp [extDomLoop, hp, hh, ha]
          rw [hl, hc]
          by_cases hs : seen.contains (lowerStr u.hostname)
          · simp [dedupFirstGo, hs, ih]
          · simp [dedupFirstGo, hs, ih]

theorem dedupFirstGo_cons_of_mem {seen : List String} {h : String}
    (t : List String) (hs : h ∈ seen) :
    dedupFirstGo seen (h :: t) = dedupFirstGo seen t := by
  simp [dedupFirstGo, hs]

theorem dedupFirstGo_cons_of_not_mem {seen : List String} {h : String}
    (t : List String) (hs : ¬ (h ∈ seen)) :
    dedupFirstGo seen (h :: t) = h :: dedupFirstGo (h :: seen) t := by
  simp [dedupFirstGo, hs]

/-- Elements produced by `dedupFirstGo` avoid the already-seen set. -/
theorem not_mem_seen_of_mem_dedupFirstGo (l : List String) :
    ∀ seen x, x ∈ dedupFirstGo seen l → ¬ (x ∈ seen) := by
  induction l with
  | nil => intro seen x hx; cases hx
  | cons h t ih =>
    intro seen x hx
    by_cases hs : h ∈ seen
    · rw [dedupFirstGo_cons_of_mem t hs] at hx
      exact ih seen x hx
    · rw [dedupFirstGo_cons_of_not_mem t hs] at hx
      rcases List.mem_cons.mp hx with rfl | hx2
      · exact hs
      · intro hmem
        exact ih (h :: seen) x hx2 (List.mem_cons_of_mem h hmem)

/-- `dedupFirstGo` produces a duplicate-free list. -/
theorem dedupFirstGo_nodup (l : List String) :
    ∀ seen, (dedupFirstGo seen l).Nodup := by
  induction l with
  | nil => intro seen; exact List.nodup_nil
  | cons h t ih =>
    intro seen
    by_cases hs : h ∈ seen
    · rw [dedupFirstGo_cons_of_mem t hs]
      exact ih seen
    · rw [dedupFirstGo_cons_of_not_mem t hs]
      refine List.nodup_cons.mpr ⟨?_, ih (h :: seen)⟩
      intro hmem
      exact not_mem_seen_of_mem_dedupFirstGo t (h :: seen) h hmem (List.mem_cons_self h seen)

/-- C6: `ExternalDomains` returns exactly the unique external hostnames
of the specification — the lowercased hostnames of the parseable,
nonempty-hostname candidates whose apex differs from the apex of the
base host, in first-occurrence document order — and the result is
duplicate-free; unparseable candidates and empty hostnames are skipped
without error. -/
theorem external_domains_correct (psl : String → Option String)
    (urlParse : String → Option URLInfo) (baseHost : String) (urls : List String) :
    ExternalDomains psl urlParse baseHost urls
        = externalDomainsSpec psl urlParse baseHost urls ∧
      (ExternalDomains psl urlParse baseHost urls).Nodup := by
  have he : ExternalDomains psl urlParse baseHost urls
      = externalDomainsSpec psl urlParse baseHost urls :=
    extDomLoop_eq_dedupFirstGo psl urlParse baseHost urls []
  exact ⟨he, he ▸ dedupFirstGo_nodup _ []⟩

theorem emitterFlush_ingest (enc : Batch → String) (postOK : Batch → Bool)
    (e : EmitterState) : (emitterFlush enc postOK e).ingest = e.ingest := by
  unfold emitterFlush
  split
  · rfl
  · split
    · rfl
    · split <;> rfl

theorem emitterFlush_acc_size (enc : Batch → String) (postOK : Batch → Bool)
    (e : EmitterState) : batchSize (emitterFlush enc postOK e).acc = 0 := by
  unfold emitterFlush
  split
  next h => exact h
  next h => rfl

/-- C7: when a flush with a configured sink holds a non-empty snapshot
and the POST fails after exhausted retries, the spool directory gains
exactly one new file at its end holding the encoded snapshot, and the
accumulator is empty, before any further append or flush can run (the
emitter is a single sequential task and flush holds the accumulator
lock). -/
theorem emitter_spool_durability (enc : Batch → String) (postOK : Batch → Bool)
    (e : EmitterState) (hne : e.ingest ≠ "") (hsz : batchSize e.acc ≠ 0)
    (hfail : postOK e.acc = false) :
    (emitterFlush enc postOK e).spool = e.spool ++ [enc e.acc] ∧
      batchSize (emitterFlush enc postOK e).acc = 0 := by
  constructor
  · simp [emitterFlush, hsz, hne, hfail]
  · exact emitterFlush_acc_size enc postOK e

/-- Witness for C7: a failing sink turns a one-edge accumulator into a
single spool file holding the encoded snapshot. -/
theorem emitter_spool_durability_witness :
    (emitterFlush encConstA postNever ⟨"http://sink", "p", "r", batchA, [], []⟩).spool
        = [] ++ [encConstA batchA] ∧
      batchSize (emitterFlush encConstA postNever
        ⟨"http://sink", "p", "r", batchA, [], []⟩).acc = 0 :=
  emitter_spool_durability encConstA postNever ⟨"http://sink", "p", "r", batchA, [], []⟩
    (by decide) (by decide) rfl

/-- C8: after `Drain` returns with a configured sink, the accumulator is
empty and the spool directory retains exactly the files whose POST
failed (or which did not decode); every file whose POST succeeded has
been removed. -/
theorem emitter_drain_completeness (enc : Batch → String) (dec : String → Option Batch)
    (postOK : Batch → Bool) (e : EmitterState) (hne : e.ingest ≠ "") :
    batchSize (emitterDrain enc dec postOK e).acc = 0 ∧
    (emitterDrain enc dec postOK e).spool
      = (emitterFlush enc postOK e).spool.filter (fun c =>
          match dec c with
          | none => true
          | some b => !(postOK b)) := by
  constructor
  · exact emitterFlush_acc_size enc postOK e
  · show (emitterFlush enc postOK e).spool.filter _ = _
    refine List.filter_congr ?_
    intro c hc
    rcases ho : dec c with _ | b
    · simp
    · have hing : (emitterFlush enc postOK e).ingest = e.ingest :=
        emitterFlush_ingest enc postOK e
      simp only [hing, hne]
      cases hpb : postOK b <;> simp [hpb, hne]

/-- Witness for C8: from a spool holding files A (POST fails) and B
(POST succeeds) and an empty accumulator, drain leaves A and removes
B. -/
theorem emitter_drain_completeness_witness :
    batchSize (emitterDrain encConstA decEx postOKEx
        ⟨"http://sink", "p", "r", batchB, ["A", "B"], []⟩).acc = 0 ∧
    (emitterDrain encConstA decEx postOKEx
        ⟨"http://sink", "p", "r", batchB, ["A", "B"], []⟩).spool
      = (emitterFlush encConstA postOKEx
          ⟨"http://sink", "p", "r", batchB, ["A", "B"], []⟩).spool.filter (fun c =>
            match decEx c with
            | none => true
            | some b => !(postOKEx b)) :=
  emitter_drain_completeness encConstA decEx postOKEx
    ⟨"http://sink", "p", "r", batchB, ["A", "B"], []⟩ (by decide)

theorem foldl_inv {α σ : Type _} (P : σ → Prop) (f : σ → α → σ) (l : List α)
    (hf : ∀ s a, a ∈ l → P s → P (f s a)) : ∀ s, P s → P (l.foldl f s) := by
  induction l with
  | nil => intro s h; exact h
  | cons a t ih =>
    intro s h
    exact ih (fun s2 b hb h2 => hf s2 b (List.mem_cons_of_mem a hb) h2) _
      (hf s a (List.mem_cons_self a t) h)

theorem mem_seenMem_cases (d : DedupState) (key k : String)
    (h : k ∈ (seenMem d key).2) : k ∈ d ∨ k = key := by
  by_cases hm : key ∈ d
  · rw [seenMem_of_mem hm] at h
    exact Or.inl h
  · rw [seenMem_of_not_mem hm] at h
    rcases List.mem_cons.mp h with rfl | h2
    · exact Or.inr rfl
    · exact Or.inl h2

theorem not_mem_seenMem (d : DedupState) (key k : String)
    (hd : ¬ (k ∈ d)) (hk : k ≠ key) : ¬ (k ∈ (seenMem d key).2) := by
  intro h
  rcases mem_seenMem_cases d key k h with h2 | h2
  · exact hd h2
  · exact hk h2

theorem stepIP_nodesD (host : String) (now : Nat) (pid rid : String)
    (st : CrawlSt) (ip : String) :
    (stepIP host now pid rid st ip).nodesD = st.nodesD := rfl

theorem stepCert_nodesD (host : String) (now : Nat) (pid rid : String)
    (st : CrawlSt) (c : NodeCert) :
    (stepCert host now pid rid st c).nodesD = st.nodesD := rfl

theorem mem_nodesD_stepLinkedDomain (psl : String → Option String)
    (etype host : String) (now : Nat) (pid rid : String) (st : CrawlSt) (n : String)
    (nd : NodeDomain) (h : nd ∈ (stepLinkedDomain psl etype host now pid rid st n).nodesD) :
    nd ∈ st.nodesD ∨ nd = ⟨n, Apex psl n, now, now⟩ := by
  simp only [stepLinkedDomain] at h
  by_cases hb : (seenMem st.d ("domain|" ++ n)).1
  · simp only [hb, if_true] at h
    exact Or.inl h
  · simp only [hb, if_false] at h
    rcases List.mem_append.mp h with h2 | h2
    · exact Or.inl h2
    · exact Or.inr (List.mem_singleton.mp h2)

theorem nodesD_head_stepLinkedDomain (psl : String → Option String)
    (etype host : String) (now : Nat) (pid rid : String) (st : CrawlSt) (n : String)
    (a : NodeDomain) (h : st.nodesD.head? = some a) :
    (stepLinkedDomain psl etype host now pid rid st n).nodesD.head? = some a := by
  simp only [stepLinkedDomain]
  by_cases hb : (seenMem st.d ("domain|" ++ n)).1
  · simpa [hb] using h
  · simp only [hb, if_false]
    cases hl : st.nodesD with
    | nil => rw [hl] at h; cases h
    | cons x t =>
      rw [hl] at h
      simpa using h

theorem mem_edges_stepIP (host : String) (now : Nat) (pid rid : String)
    (st : CrawlSt) (ip : String) (e : Edge)
    (h : e ∈ (stepIP host now pid rid st ip).edges) :
    e ∈ st.edges ∨ e = ⟨"RESOLVES_TO", host, ip, now, pid, rid⟩ := by
  simp only [stepIP] at h
  by_cases hb : (seenMem (seenMem st.d ("nodeip|" ++ ip)).2
      ("edge|" ++ host ++ "|RESOLVES_TO|" ++ ip)).1
  · simp only [hb, if_true] at h
    exact Or.inl h
  · simp only [hb, if_false] at h
    rcases List.mem_append.mp h with h2 | h2
    · exact Or.inl h2
    · exact Or.inr (List.mem_singleton.mp h2)

theorem edges_mono_stepIP (host : String) (now : Nat) (pid rid : String)
    (st : CrawlSt) (ip : String) (e : Edge) (h : e ∈ st.edges) :
    e ∈ (stepIP host now pid rid st ip).edges := by
  simp only [stepIP]
  by_cases hb : (seenMem (seenMem st.d ("nodeip|" ++ ip)).2
      ("edge|" ++ host ++ "|RESOLVES_TO|" ++ ip)).1
  · simpa [hb] using h
  · simp only [hb, if_false]
    exact List.mem_append_left _ h

theorem mem_edges_stepLinkedDomain (psl : String → Option String)
    (etype host : String) (now : Nat) (pid rid : String) (st : CrawlSt) (n : String)
    (e : Edge) (h : e ∈ (stepLinkedDomain psl etype host now pid rid st n).edges) :
    e ∈ st.edges ∨ e = ⟨etype, host, n, now, pid, rid⟩ := by
  simp only [stepLinkedDomain] at h
  by_cases hb : (seenMem (seenMem st.d ("domain|" ++ n)).2 (edgeKey host etype n)).1
  · simp only [hb, if_true] at h
    exact Or.inl h
  · simp only [hb, if_false] at h
    rcases List.mem_append.mp h with h2 | h2
    · exact Or.inl h2
    · exact Or.inr (List.mem_singleton.mp h2)

theorem edges_mono_stepLinkedDomain (psl : String → Option String)
    (etype host : String) (now : Nat) (pid rid : String) (st : CrawlSt) (n : String)
    (e : Edge) (h : e ∈ st.edges) :
    e ∈ (stepLinkedDomain psl etype host now pid rid st n).edges := by
  simp only [stepLinkedDomain]
  by_cases hb : (seenMem (seenMem st.d ("domain|" ++ n)).2 (edgeKey host etype n)).1
  · simpa [hb] using h
  · simp only [hb, if_false]
    exact List.mem_append_left _ h

theorem mem_edges_stepCert (host : String) (now : Nat) (pid rid : String)
    (st : CrawlSt) (c : NodeCert) (e : Edge)
    (h : e ∈ (stepCert host now pid rid st c).edges) :
    e ∈ st.edges ∨ e = ⟨"USES_CERT", host, c.spki, now, pid, rid⟩ := by
  simp only [stepCert] at h
  by_cases hb : (seenMem (seenMem st.d ("cert|" ++ c.spki)).2
      ("edge|" ++ host ++ "|USES_CERT|" ++ c.spki)).1
  · simp only [hb, if_true] at h
    exact Or.inl h
  · simp only [hb, if_false] at h
    rcases List.mem_append.mp h with h2 | h2
    · exact Or.inl h2
    · exact Or.inr (List.mem_singleton.mp h2)

theorem edges_mono_stepCert (host : String) (now : Nat) (pid rid : String)
    (st : CrawlSt) (c : NodeCert) (e : Edge) (h : e ∈ st.edges) :
    e ∈ (stepCert host now pid rid st c).edges := by
  simp only [stepCert]
  by_cases hb : (seenMem (seenMem st.d ("cert|" ++ c.spki)).2
      ("edge|" ++ host ++ "|USES_CERT|" ++ c.spki)).1
  · simpa [hb] using h
  · simp only [hb, if_false]
    exact List.mem_append_left _ h

theorem d_mono_stepIP (host : String) (now : Nat) (pid rid : String)
    (st : CrawlSt) (ip : String) (k : String) (h : k ∈ st.d) :
    k ∈ (stepIP host now pid rid st ip).d := by
  simp only [stepIP]
  exact mem_seenMem_mono _ (mem_seenMem_mono _ h)

theorem d_mono_stepLinkedDomain (psl : String → Option String)
    (etype host : String) (now : Nat) (pid rid : String) (st : CrawlSt) (n : String)
    (k : String) (h : k ∈ st.d) :
    k ∈ (stepLinkedDomain psl etype host now pid rid st n).d := by
  simp only [stepLinkedDomain]
  exact mem_seenMem_mono _ (mem_seenMem_mono _ h)

theorem d_mono_stepCert (host : String) (now : Nat) (pid rid : String)
    (st : CrawlSt) (c : NodeCert) (k : String) (h : k ∈ st.d) :
    k ∈ (stepCert host now pid rid st c).d := by
  simp only [stepCert]
  exact mem_seenMem_mono _ (mem_seenMem_mono _ h)

theorem edges_stepLinkedDomain_of_key_seen (psl : String → Option String)
    (etype host : String) (now : Nat) (pid rid : String) (st : CrawlSt) (n : String)
    (hk : edgeKey host etype n ∈ st.d) :
    (stepLinkedDomain psl etype host now pid rid st n).edges = st.edges := by
  simp only [stepLinkedDomain]
  have hm : edgeKey host etype n ∈ (seenMem st.d ("domain|" ++ n)).2 :=
    mem_seenMem_mono _ hk
  rw [seenMem_of_mem hm]
  rfl

theorem stepLinkedDomain_adds_edge (psl : String → Option String)
    (etype host : String) (now : Nat) (pid rid : String) (st : CrawlSt) (n : String)
    (hk : ¬ (edgeKey host etype n ∈ st.d))
    (hkd : edgeKey host etype n ≠ "domain|" ++ n) :
    (⟨etype, host, n, now, pid, rid⟩ : Edge)
      ∈ (stepLinkedDomain psl etype host now pid rid st n).edges := by
  simp only [stepLinkedDomain]
  have hm : ¬ (edgeKey host etype n ∈ (seenMem st.d ("domain|" ++ n)).2) :=
    not_mem_seenMem _ _ _ hk hkd
  rw [seenMem_of_not_mem hm]
  simp

theorem nodeip_key_ne_edgeKey (x host t c : String) :
    ("nodeip|" ++ x) ≠ edgeKey host t c := by
  intro he
  have h : (some 'n' : Option Char) = some 'e' :=
    congrArg (fun s : String => s.data.head?) he
  cases h

theorem domain_key_ne_edgeKey (x host t c : String) :
    ("domain|" ++ x) ≠ edgeKey host t c := by
  intro he
  have h : (some 'd' : Option Char) = some 'e' :=
    congrArg (fun s : String => s.data.head?) he
  cases h

theorem cert_key_ne_edgeKey (x host t c : String) :
    ("cert|" ++ x) ≠ edgeKey host t c := by
  intro he
  have h : (some 'c' : Option Char) = some 'e' :=
    congrArg (fun s : String => s.data.head?) he
  cases h

theorem resolves_key_ne_aliasKey (host x c : String) :
    ("edge|" ++ host ++ "|RESOLVES_TO|" ++ x) ≠ edgeKey host "ALIAS_OF" c := by
  intro he
  have hd := congrArg String.data he
  simp only [edgeKey, String.data_append, List.append_assoc] at hd
  have hd2 := List.append_cancel_left (List.append_cancel_left hd)
  have hd3 : ('|' :: 'R' :: ("ESOLVES_TO|".data ++ x.data) : List Char)
      = '|' :: 'A' :: ("LIAS_OF".data ++ ("|".data ++ c.data)) := hd2
  simp at hd3

theorem usesns_key_ne_aliasKey (host x c : String) :
    edgeKey host "USES_NS" x ≠ edgeKey host "ALIAS_OF" c := by
  intro he
  have hd := congrArg String.data he
  simp only [edgeKey, String.data_append, List.append_assoc] at hd
  have hd2 := List.append_cancel_left (List.append_cancel_left hd)
  have hd3 : ('|' :: 'U' :: ("SES_NS".data ++ ("|".data ++ x.data)) : List Char)
      = '|' :: 'A' :: ("LIAS_OF".data ++ ("|".data ++ c.data)) := hd2
  simp at hd3

/-- Any property preserved by the four DNS-phase steps holds of the
DNS-phase state when it holds of the initial accumulator. -/
theorem crawlDNSSt_preserve (psl : String → Option String) (pid rid host : String)
    (now : Nat) (dns : DNSResult) (d0 : DedupState) (P : CrawlSt → Prop)
    (hIP : ∀ st ip, ip ∈ dns.ips → P st → P (stepIP host now pid rid st ip))
    (hNS : ∀ st n, n ∈ dns.ns → P st →
      P (stepLinkedDomain psl "USES_NS" host now pid rid st n))
    (hCN : ∀ st, dns.cname ≠ "" → P st →
      P (stepLinkedDomain psl "ALIAS_OF" host now pid rid st dns.cname))
    (hMX : ∀ st n, n ∈ dns.mx → P st →
      P (stepLinkedDomain psl "USES_MX" host now pid rid st n))
    (h0 : P ⟨[⟨host, Apex psl host, now, now⟩], [], [], [], d0⟩) :
    P (crawlDNSSt psl pid rid host now dns d0) := by
  unfold crawlDNSSt
  refine foldl_inv P _ _ (fun s a ha h => hMX s a ha h) _ ?_
  split
  next hcn =>
    exact hCN _ hcn (foldl_inv P _ _ (fun s a ha h => hNS s a ha h) _
      (foldl_inv P _ _ (fun s a ha h => hIP s a ha h) _ h0))
  next hcn =>
    exact foldl_inv P _ _ (fun s a ha h => hNS s a ha h) _
      (foldl_inv P _ _ (fun s a ha h => hIP s a ha h) _ h0)

/-- Any property preserved by the link and certificate steps transfers
from the DNS-phase state to the final accumulator state, in every
branch of the pipeline. -/
theorem crawlFinalSt_preserve (psl : String → Option String)
    (urlParse : String → Option URLInfo) (excluded : List String)
    (pid rid host : String) (now : Nat) (env : CrawlEnv) (d0 : DedupState)
    (P : CrawlSt → Prop)
    (hLink : ∀ st n resp, env.httpResp = some resp →
      n ∈ ExternalDomains psl urlParse host resp.links → P st →
      P (stepLinkedDomain psl "LINKS_TO" host now pid rid st n))
    (hCert : ∀ st c, env.cert = some c → P st → P (stepCert host now pid rid st c))
    (h4 : P (crawlDNSSt psl pid rid host now env.dns d0)) :
    P (crawlFinalSt psl urlParse excluded pid rid host now env d0) := by
  unfold crawlFinalSt
  split
  · exact h4
  · split
    · exact h4
    · cases hh : env.httpResp with
      | none =>
        cases hc : env.cert with
        | none => dsimp only; exact h4
        | some c => dsimp only; exact hCert _ c hc h4
      | some resp =>
        cases hc : env.cert with
        | none =>
          dsimp only
          split
          · exact foldl_inv P _ _ (fun s a ha h => hLink s a resp hh ha h) _ h4
          · exact h4
        | some c =>
          dsimp only
          split
          · exact hCert _ c hc
              (foldl_inv P _ _ (fun s a ha h => hLink s a resp hh ha h) _ h4)
          · exact hCert _ c hc h4

/-- The batch handed to the emitter carries exactly the accumulated
domain nodes and edges. -/
theorem crawlOne_batch_fields (psl : String → Option String)
    (urlParse : String → Option URLInfo) (excluded : List String)
    (pid rid host : String) (now : Nat) (env : CrawlEnv) (d0 : DedupState)
    (b : Batch) (hb : (crawlOne psl urlParse excluded pid rid host now env d0).1 = some b) :
    b.nodesD = (crawlFinalSt psl urlParse excluded pid rid host now env d0).nodesD ∧
      b.edges = (crawlFinalSt psl urlParse excluded pid rid host now env d0).edges := by
  simp only [crawlOne, probeFlush] at hb
  split at hb
  · cases hb
  · cases hb
    exact ⟨rfl, rfl⟩

/-- C1 counterexample: with the deduplicator already holding the domain
key of the crawled host, `CrawlOne` still emits the provisional domain
node for that host — the claimed dedup gate on the provisional node does
not exist (lines 70-71 append it without a `Seen` call). -/
theorem crawl_provisional_not_gated :
    ∃ b, (crawlOne pslNone urlParseEx [] "p" "r" "example.com" 0 env0
        ["domain|example.com"]).1 = some b ∧
      (⟨"example.com", "example.com", 0, 0⟩ : NodeDomain) ∈ b.nodesD :=
  ⟨⟨"p", "r", [⟨"example.com", "example.com", 0, 0⟩], [], [], []⟩,
    by decide, by decide⟩

/-- C1 amended: the provisional domain node of the crawled host (host,
apex of host, now, now) is emitted unconditionally as the first domain
node of the batch, for every deduplicator state — it is not dedup-gated;
the dedup gate applies to the NS, CNAME, MX and external-link domain
nodes.  In particular the batch always exists. -/
theorem crawl_provisional_unconditional (psl : String → Option String)
    (urlParse : String → Option URLInfo) (excluded : List String)
    (pid rid host : String) (now : Nat) (env : CrawlEnv) (d0 : DedupState) :
    ∃ b, (crawlOne psl urlParse excluded pid rid host now env d0).1 = some b ∧
      b.nodesD.head? = some ⟨host, Apex psl host, now, now⟩ := by
  have hP : (crawlFinalSt psl urlParse excluded pid rid host now env d0).nodesD.head?
      = some ⟨host, Apex psl host, now, now⟩ := by
    refine crawlFinalSt_preserve psl urlParse excluded pid rid host now env d0
      (fun st => st.nodesD.head? = some ⟨host, Apex psl host, now, now⟩)
      (fun st n resp hresp hn h =>
        nodesD_head_stepLinkedDomain psl _ host now pid rid st n _ h)
      (fun st c hc h => by simpa [stepCert_nodesD] using h)
      ?_
    exact crawlDNSSt_preserve psl pid rid host now env.dns d0 _
      (fun st ip hip h => by simpa [stepIP_nodesD] using h)
      (fun st n hn h => nodesD_head_stepLinkedDomain psl _ host now pid rid st n _ h)
      (fun st hcn h => nodesD_head_stepLinkedDomain psl _ host now pid rid st _ _ h)
      (fun st n hn h => nodesD_head_stepLinkedDomain psl _ host now pid rid st n _ h)
      rfl
  have hlen : (crawlFinalSt psl urlParse excluded pid rid host now env d0).nodesD.length ≠ 0 := by
    cases hl : (crawlFinalSt psl urlParse excluded pid rid host now env d0).nodesD with
    | nil => rw [hl] at hP; cases hP
    | cons a t => simp [hl]
  refine ⟨⟨pid, rid,
      (crawlFinalSt psl urlParse excluded pid rid host now env d0).nodesD,
      (crawlFinalSt psl urlParse excluded pid rid host now env d0).nodesIP,
      (crawlFinalSt psl urlParse excluded pid rid host now env d0).nodesC,
      (crawlFinalSt psl urlParse excluded pid rid host now env d0).edges⟩, ?_, hP⟩
  simp only [crawlOne, probeFlush]
  rw [if_neg (by omega)]

theorem alias_notin_stepIP (host : String) (now : Nat) (pid rid : String)
    (st : CrawlSt) (ip c : String)
    (h : ¬ ((⟨"ALIAS_OF", host, c, now, pid, rid⟩ : Edge) ∈ st.edges)) :
    ¬ ((⟨"ALIAS_OF", host, c, now, pid, rid⟩ : Edge)
      ∈ (stepIP host now pid rid st ip).edges) := by
  intro hm
  rcases mem_edges_stepIP host now pid rid st ip _ hm with h2 | h2
  · exact h h2
  · have hne : ("ALIAS_OF" : String) ≠ "RESOLVES_TO" := by decide
    exact absurd (congrArg Edge.etype h2) hne

theorem alias_notin_stepLinkedDomain (psl : String → Option String)
    (etype host : String) (now : Nat) (pid rid : String) (st : CrawlSt) (n c : String)
    (ht : etype ≠ "ALIAS_OF")
    (h : ¬ ((⟨"ALIAS_OF", host, c, now, pid, rid⟩ : Edge) ∈ st.edges)) :
    ¬ ((⟨"ALIAS_OF", host, c, now, pid, rid⟩ : Edge)
      ∈ (stepLinkedDomain psl etype host now pid rid st n).edges) := by
  intro hm
  rcases mem_edges_stepLinkedDomain psl etype host now pid rid st n _ hm with h2 | h2
  · exact h h2
  · exact ht (congrArg Edge.etype h2).symm

theorem alias_notin_stepCert (host : String) (now : Nat) (pid rid : String)
    (st : CrawlSt) (cc : NodeCert) (c : String)
    (h : ¬ ((⟨"ALIAS_OF", host, c, now, pid, rid⟩ : Edge) ∈ st.edges)) :
    ¬ ((⟨"ALIAS_OF", host, c, now, pid, rid⟩ : Edge)
      ∈ (stepCert host now pid rid st cc).edges) := by
  intro hm
  rcases mem_edges_stepCert host now pid rid st cc _ hm with h2 | h2
  · exact h h2
  · have hne : ("ALIAS_OF" : String) ≠ "USES_CERT" := by decide
    exact absurd (congrArg Edge.etype h2) hne

theorem aliasKey_notin_stepIP (host : String) (now : Nat) (pid rid : String)
    (st : CrawlSt) (ip c : String)
    (h : ¬ (edgeKey host "ALIAS_OF" c ∈ st.d)) :
    ¬ (edgeKey host "ALIAS_OF" c ∈ (stepIP host now pid rid st ip).d) := by
  simp only [stepIP]
  exact not_mem_seenMem _ _ _
    (not_mem_seenMem _ _ _ h (Ne.symm (nodeip_key_ne_edgeKey ip host "ALIAS_OF" c)))
    (Ne.symm (resolves_key_ne_aliasKey host ip c))

theorem aliasKey_notin_stepNS (psl : String → Option String) (host : String)
    (now : Nat) (pid rid : String) (st : CrawlSt) (n c : String)
    (h : ¬ (edgeKey host "ALIAS_OF" c ∈ st.d)) :
    ¬ (edgeKey host "ALIAS_OF" c
      ∈ (stepLinkedDomain psl "USES_NS" host now pid rid st n).d) := by
  simp only [stepLinkedDomain]
  exact not_mem_seenMem _ _ _
    (not_mem_seenMem _ _ _ h (Ne.symm (domain_key_ne_edgeKey n host "ALIAS_OF" c)))
    (Ne.symm (usesns_key_ne_aliasKey host n c))

/-- With a non-empty canonical name whose ALIAS edge key is unseen, the
DNS phase emits the ALIAS_OF edge from the host to the canonical
name. -/
theorem aliasE_in_crawlDNSSt (psl : String → Option String) (pid rid host : String)
    (now : Nat) (dns : DNSResult) (d0 : DedupState)
    (hcn : dns.cname ≠ "") (hk : ¬ (edgeKey host "ALIAS_OF" dns.cname ∈ d0)) :
    (⟨"ALIAS_OF", host, dns.cname, now, pid, rid⟩ : Edge)
      ∈ (crawlDNSSt psl pid rid host now dns d0).edges := by
  unfold crawlDNSSt
  refine foldl_inv
    (fun st => (⟨"ALIAS_OF", host, dns.cname, now, pid, rid⟩ : Edge) ∈ st.edges) _ _
    (fun s a _ h => edges_mono_stepLinkedDomain psl _ host now pid rid s a _ h) _ ?_
  rw [if_pos hcn]
  refine stepLinkedDomain_adds_edge psl _ host now pid rid _ _ ?_
    (Ne.symm (domain_key_ne_edgeKey dns.cname host "ALIAS_OF" dns.cname))
  refine foldl_inv (fun st => ¬ (edgeKey host "ALIAS_OF" dns.cname ∈ st.d)) _ _
    (fun s a _ h => aliasKey_notin_stepNS psl host now pid rid s a _ h) _ ?_
  refine foldl_inv (fun st => ¬ (edgeKey host "ALIAS_OF" dns.cname ∈ st.d)) _ _
    (fun s a _ h => aliasKey_notin_stepIP host now pid rid s a _ h) _ ?_
  exact hk

/-- When the canonical name is empty or its ALIAS edge key was already
seen, the pipeline never accumulates the ALIAS_OF edge. -/
theorem aliasE_notin_crawlFinalSt (psl : String → Option String)
    (urlParse : String → Option URLInfo) (excluded : List String)
    (pid rid host : String) (now : Nat) (env : CrawlEnv) (d0 : DedupState)
    (hcase : env.dns.cname = "" ∨ edgeKey host "ALIAS_OF" env.dns.cname ∈ d0) :
    ¬ ((⟨"ALIAS_OF", host, env.dns.cname, now, pid, rid⟩ : Edge)
      ∈ (crawlFinalSt psl urlParse excluded pid rid host now env d0).edges) := by
  rcases hcase with hc | hk
  · refine crawlFinalSt_preserve psl urlParse excluded pid rid host now env d0
      (fun st => ¬ ((⟨"ALIAS_OF", host, env.dns.cname, now, pid, rid⟩ : Edge) ∈ st.edges))
      (fun st n resp hresp hn h =>
        alias_notin_stepLinkedDomain psl _ host now pid rid st n _ (by decide) h)
      (fun st c hcert h => alias_notin_stepCert host now pid rid st c _ h)
      ?_
    refine crawlDNSSt_preserve psl pid rid host now env.dns d0 _
      (fun st ip hip h => alias_notin_stepIP host now pid rid st ip _ h)
      (fun st n hn h =>
        alias_notin_stepLinkedDomain psl _ host now pid rid st n _ (by decide) h)
      (fun st hcn h => absurd hc hcn)
      (fun st n hn h =>
        alias_notin_stepLinkedDomain psl _ host now pid rid st n _ (by decide) h)
      (List.not_mem_nil _)
  · have hQ := crawlFinalSt_preserve psl urlParse excluded pid rid host now env d0
      (fun st => ¬ ((⟨"ALIAS_OF", host, env.dns.cname, now, pid, rid⟩ : Edge) ∈ st.edges)
        ∧ edgeKey host "ALIAS_OF" env.dns.cname ∈ st.d)
      (fun st n resp hresp hn h =>
        ⟨alias_notin_stepLinkedDomain psl _ host now pid rid st n _ (by decide) h.1,
         d_mono_stepLinkedDomain psl _ host now pid rid st n _ h.2⟩)
      (fun st c hcert h =>
        ⟨alias_notin_stepCert host now pid rid st c _ h.1,
         d_mono_stepCert host now pid rid st c _ h.2⟩)
      (crawlDNSSt_preserve psl pid rid host now env.dns d0
        (fun st => ¬ ((⟨"ALIAS_OF", host, env.dns.cname, now, pid, rid⟩ : Edge) ∈ st.edges)
          ∧ edgeKey host "ALIAS_OF" env.dns.cname ∈ st.d)
        (fun st ip hip h =>
          ⟨alias_notin_stepIP host now pid rid st ip _ h.1,
           d_mono_stepIP host now pid rid st ip _ h.2⟩)
        (fun st n hn h =>
          ⟨alias_notin_stepLinkedDomain psl _ host now pid rid st n _ (by decide) h.1,
           d_mono_stepLinkedDomain psl _ host now pid rid st n _ h.2⟩)
        (fun st hcn h => by
          refine ⟨?_, d_mono_stepLinkedDomain psl _ host now pid rid st _ _ h.2⟩
          rw [edges_stepLinkedDomain_of_key_seen psl _ host now pid rid st _ h.2]
          exact h.1)
        (fun st n hn h =>
          ⟨alias_notin_stepLinkedDomain psl _ host now pid rid st n _ (by decide) h.1,
           d_mono_stepLinkedDomain psl _ host now pid rid st n _ h.2⟩)
        ⟨List.not_mem_nil _, hk⟩)
    exact hQ.1

/-- C10: the pipeline emits the ALIAS_OF edge from the crawled host to
the canonical name exactly when DNS returned a non-empty canonical name
and the edge dedup key was unseen — the edge key is the only gate, and
the statement covers the self-loop case where the canonical name equals
the crawled host. -/
theorem crawl_alias_edge_iff (psl : String → Option String)
    (urlParse : String → Option URLInfo) (excluded : List String)
    (pid rid host : String) (now : Nat) (env : CrawlEnv) (d0 : DedupState) :
    (∃ b, (crawlOne psl urlParse excluded pid rid host now env d0).1 = some b ∧
        (⟨"ALIAS_OF", host, env.dns.cname, now, pid, rid⟩ : Edge) ∈ b.edges)
      ↔ (env.dns.cname ≠ "" ∧ ¬ (edgeKey host "ALIAS_OF" env.dns.cname ∈ d0)) := by
  constructor
  · rintro ⟨b, hb, he⟩
    rw [(crawlOne_batch_fields psl urlParse excluded pid rid host now env d0 b hb).2] at he
    by_cases hc : env.dns.cname = ""
    · exact absurd he
        (aliasE_notin_crawlFinalSt psl urlParse excluded pid rid host now env d0
          (Or.inl hc))
    · by_cases hk : edgeKey host "ALIAS_OF" env.dns.cname ∈ d0
      · exact absurd he
          (aliasE_notin_crawlFinalSt psl urlParse excluded pid rid host now env d0
            (Or.inr hk))
      · exact ⟨hc, hk⟩
  · rintro ⟨hcn, hk⟩
    have hP : (⟨"ALIAS_OF", host, env.dns.cname, now, pid, rid⟩ : Edge)
        ∈ (crawlFinalSt psl urlParse excluded pid rid host now env d0).edges := by
      refine crawlFinalSt_preserve psl urlParse excluded pid rid host now env d0
        (fun st => (⟨"ALIAS_OF", host, env.dns.cname, now, pid, rid⟩ : Edge) ∈ st.edges)
        (fun st n resp hresp hn h =>
          edges_mono_stepLinkedDomain psl _ host now pid rid st n _ h)
        (fun st c hcert h => edges_mono_stepCert host now pid rid st c _ h)
        ?_
      exact aliasE_in_crawlDNSSt psl pid rid host now env.dns d0 hcn hk
    have hlen : (crawlFinalSt psl urlParse excluded pid rid host now env d0).edges.length ≠ 0 := by
      cases hl : (crawlFinalSt psl urlParse excluded pid rid host now env d0).edges with
      | nil => rw [hl] at hP; cases hP
      | cons a t => simp [hl]
    refine ⟨⟨pid, rid,
        (crawlFinalSt psl urlParse excluded pid rid host now env d0).nodesD,
        (crawlFinalSt psl urlParse excluded pid rid host now env d0).nodesIP,
        (crawlFinalSt psl urlParse excluded pid rid host now env d0).nodesC,
        (crawlFinalSt psl urlParse excluded pid rid host now env d0).edges⟩, ?_, hP⟩
    simp only [crawlOne, probeFlush]
    rw [if_neg (by omega)]

/-- A concrete self-loop run: when the canonical name equals the crawled
host, the batch contains the ALIAS_OF self-loop edge (and a duplicate
domain node, since the provisional node is not gated). -/
theorem crawl_alias_selfloop_eval :
    ∃ b, (crawlOne pslNone urlParseEx [] "p" "r" "example.com" 0
        ⟨⟨[], [], "example.com", []⟩, false, none, none⟩ []).1 = some b ∧
      (⟨"ALIAS_OF", "example.com", "example.com", 0, "p", "r"⟩ : Edge) ∈ b.edges :=
  ⟨⟨"p", "r",
      [⟨"example.com", "example.com", 0, 0⟩, ⟨"example.com", "example.com", 0, 0⟩],
      [], [], [⟨"ALIAS_OF", "example.com", "example.com", 0, "p", "r"⟩]⟩,
    by decide, by decide⟩

theorem mem_of_mem_dedupFirstGo (l : List String) :
    ∀ seen x, x ∈ dedupFirstGo seen l → x ∈ l := by
  induction l with
  | nil => intro seen x hx; cases hx
  | cons h t ih =>
    intro seen x hx
    by_cases hs : h ∈ seen
    · rw [dedupFirstGo_cons_of_mem t hs] at hx
      exact List.mem_cons_of_mem h (ih seen x hx)
    · rw [dedupFirstGo_cons_of_not_mem t hs] at hx
      rcases List.mem_cons.mp hx with rfl | hx2
      · exact List.mem_cons_self x t
      · exact List.mem_cons_of_mem h (ih (h :: seen) x hx2)

/-- Every hostname returned by `ExternalDomains` is the lowercased
hostname of some parseable candidate URL. -/
theorem exists_of_mem_externalDomains (psl : String → Option String)
    (urlParse : String → Option URLInfo) (baseHost : String) (urls : List String)
    (x : String) (hx : x ∈ ExternalDomains psl urlParse baseHost urls) :
    ∃ u ∈ urls, ∃ info, urlParse u = some info ∧ x = lowerStr info.hostname := by
  unfold ExternalDomains at hx
  rw [extDomLoop_eq_dedupFirstGo] at hx
  have hx2 : x ∈ externalCandidates psl urlParse baseHost urls :=
    mem_of_mem_dedupFirstGo _ [] x hx
  rcases List.mem_filterMap.mp hx2 with ⟨u, hu, hf⟩
  refine ⟨u, hu, ?_⟩
  cases hp : urlParse u with
  | none => simp [hp] at hf
  | some info =>
    refine ⟨info, rfl, ?_⟩
    simp only [hp] at hf
    by_cases h1 : lowerStr info.hostname = ""
    · simp [h1] at hf
    · by_cases h2 : Apex psl (lowerStr info.hostname) = Apex psl baseHost
      · simp [h1, h2] at hf
      · simp [h1, h2] at hf
        exact hf.symm

/-- C9 amended: every domain node the pipeline emits has apex equal to
apex(host) of its own host field, unconditionally; and — provided the
crawled host and the DNS- and link-supplied names are themselves
lowercase without a trailing dot — the host field is lowercase without
a trailing dot.  The lowercase-no-dot guarantee is conditional because
only the domains-file reader normalizes (lowercasing and stripping one
trailing dot); the work-queue lease path feeds hosts to the pipeline
verbatim and the pipeline itself does not normalize. -/
theorem crawl_domain_nodes_normalized (psl : String → Option String)
    (urlParse : String → Option URLInfo) (excluded : List String)
    (pid rid host : String) (now : Nat) (env : CrawlEnv) (d0 : DedupState)
    (b : Batch)
    (hb : (crawlOne psl urlParse excluded pid rid host now env d0).1 = some b) :
    (∀ nd ∈ b.nodesD, nd.apex = Apex psl nd.host) ∧
    ((lowerStr host = host ∧ endsWithStr host "." = false) →
      (∀ n ∈ env.dns.ns, lowerStr n = n ∧ endsWithStr n "." = false) →
      (env.dns.cname ≠ "" →
        lowerStr env.dns.cname = env.dns.cname ∧
          endsWithStr env.dns.cname "." = false) →
      (∀ n ∈ env.dns.mx, lowerStr n = n ∧ endsWithStr n "." = false) →
      (∀ resp, env.httpResp = some resp → ∀ u ∈ resp.links, ∀ info,
        urlParse u = some info →
        lowerStr info.hostname = info.hostname ∧
          endsWithStr info.hostname "." = false) →
      ∀ nd ∈ b.nodesD,
        lowerStr nd.host = nd.host ∧ endsWithStr nd.host "." = false ∧
          nd.apex = Apex psl nd.host) := by
  constructor
  · rw [(crawlOne_batch_fields psl urlParse excluded pid rid host now env d0 b hb).1]
    refine crawlFinalSt_preserve psl urlParse excluded pid rid host now env d0
      (fun st => ∀ nd ∈ st.nodesD, nd.apex = Apex psl nd.host)
      ?_ ?_ ?_
    · intro st n resp hresp hn h nd hnd
      rcases mem_nodesD_stepLinkedDomain psl _ host now pid rid st n nd hnd with h2 | h2
      · exact h nd h2
      · subst h2
        rfl
    · intro st c hc h nd hnd
      rw [stepCert_nodesD] at hnd
      exact h nd hnd
    · refine crawlDNSSt_preserve psl pid rid host now env.dns d0
        (fun st => ∀ nd ∈ st.nodesD, nd.apex = Apex psl nd.host)
        ?_ ?_ ?_ ?_ ?_
      · intro st ip hip h nd hnd
        rw [stepIP_nodesD] at hnd
        exact h nd hnd
      · intro st n hn h nd hnd
        rcases mem_nodesD_stepLinkedDomain psl _ host now pid rid st n nd hnd with h2 | h2
        · exact h nd h2
        · subst h2
          rfl
      · intro st hc h nd hnd
        rcases mem_nodesD_stepLinkedDomain psl _ host now pid rid st _ nd hnd with h2 | h2
        · exact h nd h2
        · subst h2
          rfl
      · intro st n hn h nd hnd
        rcases mem_nodesD_stepLinkedDomain psl _ host now pid rid st n nd hnd with h2 | h2
        · exact h nd h2
        · subst h2
          rfl
      · intro nd hnd
        rcases List.mem_singleton.mp hnd with rfl
        rfl
  intro hhost hns hcn hmx hlinks
  rw [(crawlOne_batch_fields psl urlParse excluded pid rid host now env d0 b hb).1]
  refine crawlFinalSt_preserve psl urlParse excluded pid rid host now env d0
    (fun st => ∀ nd ∈ st.nodesD,
      lowerStr nd.host = nd.host ∧ endsWithStr nd.host "." = false ∧
        nd.apex = Apex psl nd.host)
    ?_ ?_ ?_
  · intro st n resp hresp hn h nd hnd
    rcases mem_nodesD_stepLinkedDomain psl _ host now pid rid st n nd hnd with h2 | h2
    · exact h nd h2
    · subst h2
      obtain ⟨u, hu, info, hui, hxn⟩ :=
        exists_of_mem_externalDomains psl urlParse host resp.links n hn
      have hinfo := hlinks resp hresp u hu info hui
      subst hxn
      rw [hinfo.1]
      exact ⟨hinfo.1, hinfo.2, rfl⟩
  · intro st c hc h nd hnd
    rw [stepCert_nodesD] at hnd
    exact h nd hnd
  · refine crawlDNSSt_preserve psl pid rid host now env.dns d0
      (fun st => ∀ nd ∈ st.nodesD,
        lowerStr nd.host = nd.host ∧ endsWithStr nd.host "." = false ∧
          nd.apex = Apex psl nd.host)
      ?_ ?_ ?_ ?_ ?_
    · intro st ip hip h nd hnd
      rw [stepIP_nodesD] at hnd
      exact h nd hnd
    · intro st n hn h nd hnd
      rcases mem_nodesD_stepLinkedDomain psl _ host now pid rid st n nd hnd with h2 | h2
      · exact h nd h2
      · subst h2
        exact ⟨(hns n hn).1, (hns n hn).2, rfl⟩
    · intro st hc h nd hnd
      rcases mem_nodesD_stepLinkedDomain psl _ host now pid rid st _ nd hnd with h2 | h2
      · exact h nd h2
      · subst h2
        exact ⟨(hcn hc).1, (hcn hc).2, rfl⟩
    · intro st n hn h nd hnd
      rcases mem_nodesD_stepLinkedDomain psl _ host now pid rid st n nd hnd with h2 | h2
      · exact h nd h2
      · subst h2
        exact ⟨(hmx n hn).1, (hmx n hn).2, rfl⟩
    · intro nd hnd
      rcases List.mem_singleton.mp hnd with rfl
      exact ⟨hhost.1, hhost.2, rfl⟩

/-- C9 counterexample: a host leased from the work queue enters the
pipeline verbatim (`leaseTask` is the identity), so crawling the leased
host EXAMPLE.COM. emits a domain node whose host field is neither
lowercase nor free of a trailing dot. -/
theorem crawl_normalization_counterexample :
    ∃ b, (crawlOne pslNone urlParseEx [] "p" "r" (leaseTask "EXAMPLE.COM.") 0
        env0 []).1 = some b ∧
      ∃ nd, nd ∈ b.nodesD ∧
        ¬ (lowerStr nd.host = nd.host ∧ endsWithStr nd.host "." = false) :=
  ⟨⟨"p", "r", [⟨"EXAMPLE.COM.", "example.com.", 0, 0⟩], [], [], []⟩, by decide,
    ⟨⟨"EXAMPLE.COM.", "example.com.", 0, 0⟩, by decide, by decide⟩⟩

/-- Witness for C9 at a normalized crawled host, exercising both the
unconditional apex part and the conditional normalization part. -/
theorem crawl_domain_nodes_normalized_witness :
    (NodeDomain.mk "example.com" "example.com" 0 0).apex
        = Apex pslNone (NodeDomain.mk "example.com" "example.com" 0 0).host ∧
    (lowerStr (NodeDomain.mk "example.com" "example.com" 0 0).host
        = (NodeDomain.mk "example.com" "example.com" 0 0).host ∧
      endsWithStr (NodeDomain.mk "example.com" "example.com" 0 0).host "." = false ∧
      (NodeDomain.mk "example.com" "example.com" 0 0).apex
        = Apex pslNone (NodeDomain.mk "example.com" "example.com" 0 0).host) :=
  ⟨(crawl_domain_nodes_normalized pslNone urlParseEx [] "p" "r" "example.com" 0 env0 []
      ⟨"p", "r", [⟨"example.com", "example.com", 0, 0⟩], [], [], []⟩ (by decide)).1
    ⟨"example.com", "example.com", 0, 0⟩ (by decide),
   (crawl_domain_nodes_normalized pslNone urlParseEx [] "p" "r" "example.com" 0 env0 []
      ⟨"p", "r", [⟨"example.com", "example.com", 0, 0⟩], [], [], []⟩ (by decide)).2
    (by decide) (fun n hn => nomatch hn) (fun hc => absurd rfl hc)
    (fun n hn => nomatch hn) (fun resp hresp => nomatch hresp)
    ⟨"example.com", "example.com", 0, 0⟩ (by decide)⟩
